import Mathlib

/-!
Shallow embedding of the cache-buster asset-fingerprinting library
(src/filemap.rs, src/processor.rs) together with proofs of the spec's
claims about it.

Rust strings are modelled as Lean `String` (a sequence of characters),
byte buffers as `List Nat` (each entry a byte value), filesystem paths
as strings with an explicit `joinPath` mirroring `Path::join`, and the
`HashMap<String, String>` inside `Files` as an association list with
unique keys enforced by `Files.add`.  Fallible operations return
`Option`/`Except` where the Rust returns `Option`/`Result`.
-/

namespace CacheBuster

/-- The value of `&s[n..]` on a string, assuming `n` is in bounds:
drop the first `n` characters.  The Rust slice panics for `n` past the
end; that error path is modelled separately by [strDropChecked]. -/
def strDrop (s : String) (n : Nat) : String := ⟨s.data.drop n⟩

/-- `&s[n..]` with the slice's bounds check made explicit: `none`
models the panic when `n` exceeds the length (in this character-sequence
model of strings the char-boundary condition reduces to that bound;
`n = s.length` yields the empty suffix, as in Rust). -/
def strDropChecked (s : String) (n : Nat) : Option String :=
  if n ≤ s.data.length then some ⟨s.data.drop n⟩ else none

/-- Embedding of Rust `str::starts_with('/')`. -/
def startsWithSlash (s : String) : Bool := s.data.head? == some '/'

/-- Embedding of Rust `str::ends_with('/')`. -/
def endsWithSlash (s : String) : Bool := s.data.getLast? == some '/'

/-- Embedding of `Path::new(a).join(b)`: an absolute `b` replaces `a`;
otherwise the components are concatenated with a single separator. -/
def joinPath (a b : String) : String :=
  if startsWithSlash b then b
  else if a = "" then b
  else if endsWithSlash a then a ++ b
  else a ++ "/" ++ b

/-- The leading-slash normalization applied to `self.result` in
`Buster::gen_map` (`if result.starts_with('/') { &self.result[1..] }`). -/
def stripLeadingSlash (s : String) : String :=
  if startsWithSlash s then strDrop s 1 else s

/-- `Path::file_name` restricted to the cases arising here: the final
component after the last separator. -/
def fileName (s : String) : String :=
  ⟨(s.data.reverse.takeWhile (fun c => c ≠ '/')).reverse⟩

/-- `Path::extension`: the portion of the file name after the final dot;
`none` when there is no embedded dot or the only dot is leading. -/
def extension (s : String) : Option String :=
  let n := (fileName s).data
  let extRev := n.reverse.takeWhile (fun c => c ≠ '.')
  if extRev.length = n.length then none
  else if n.length = extRev.length + 1 then none
  else some ⟨extRev.reverse⟩

/-- `Path::file_stem`: the file name up to (excluding) the final dot,
or the whole name when `extension` would be `none`. -/
def fileStem (s : String) : Option String :=
  let n := (fileName s).data
  if n = [] then none
  else
    let extRev := n.reverse.takeWhile (fun c => c ≠ '.')
    if extRev.length = n.length then some ⟨n⟩
    else if n.length = extRev.length + 1 then some ⟨n⟩
    else some ⟨(n.reverse.drop (extRev.length + 1)).reverse⟩

/-- The `Files` struct of src/filemap.rs and src/processor.rs: a map
from original paths to fingerprinted paths plus the output base dir.
The `HashMap` is modelled as an association list. -/
structure Files where
  map : List (String × String)
  base_dir : String
deriving DecidableEq

/-- `HashMap::get` on the association list: first matching key. -/
def getKey : List (String × String) → String → Option String
  | [], _ => none
  | (k', v) :: rest, k => if k' = k then some v else getKey rest k

/-- `HashMap::contains_key` on the association list. -/
def containsKey (m : List (String × String)) (k : String) : Bool :=
  m.any (fun kv => kv.1 = k)

/-- `Files::get` (src/filemap.rs) on its in-bounds domain: look up
`path` and slice off the first `base_dir.len()` characters of the
stored value.  The slice's panic on a too-short stored value is
modelled separately by [Files.get_checked]. -/
def Files.get (f : Files) (path : String) : Option String :=
  match getKey f.map path with
  | some p => some (strDrop p f.base_dir.length)
  | none => none

/-- `Files::get` with the panic of `&path[self.base_dir.len()..]` made
explicit: the outer `none` models the panic when the stored value is
shorter than `base_dir`; `some r` is the `Option` the Rust function
returns. -/
def Files.get_checked (f : Files) (path : String) : Option (Option String) :=
  match getKey f.map path with
  | some p =>
    match strDropChecked p f.base_dir.length with
    | some r => some (some r)
    | none => none
  | none => some none

/-- `Files::get_full_path` (src/filemap.rs): raw map lookup. -/
def Files.get_full_path (f : Files) (path : String) : Option String :=
  getKey f.map path

/-- `Files::add` (src/processor.rs / src/map.rs): error when the key is
already present, otherwise insert the pair. -/
def Files.add (f : Files) (k v : String) : Except String Files :=
  if containsKey f.map k then Except.error "key exists"
  else Except.ok { f with map := f.map ++ [(k, v)] }

/-- The `let _ = file_map.add(source, destination);` statement in
`Buster::process`: the duplicate-key error is discarded and the table
left unchanged. -/
def swallowAdd (f : Files) (k v : String) : Files :=
  match f.add k v with
  | Except.ok f' => f'
  | Except.error _ => f

/-- Inserting a whole run's (source, destination) pairs the way
`Buster::process` does, each `add` failure swallowed. -/
def addAllSwallow (f : Files) (ps : List (String × String)) : Files :=
  ps.foldl (fun acc kv => swallowAdd acc kv.1 kv.2) f

/-! ### SHA-256 (the `sha2::Sha256` digest used by `Buster::hasher`) -/

/-- Truncate to a 32-bit word. -/
def w32 (n : Nat) : Nat := n % 4294967296

/-- 32-bit rotate right. -/
def rotr (n x : Nat) : Nat := w32 ((x >>> n) ||| (x <<< (32 - n)))

/-- The SHA-256 round constants. -/
def sha256K : List Nat :=
  [1116352408, 1899447441, 3049323471, 3921009573, 961987163,
   1508970993, 2453635748, 2870763221, 3624381080, 310598401,
   607225278, 1426881987, 1925078388, 2162078206, 2614888103,
   3248222580, 3835390401, 4022224774, 264347078, 604807628,
   770255983, 1249150122, 1555081692, 1996064986, 2554220882,
   2821834349, 2952996808, 3210313671, 3336571891, 3584528711,
   113926993, 338241895, 666307205, 773529912, 1294757372,
   1396182291, 1695183700, 1986661051, 2177026350, 2456956037,
   2730485921, 2820302411, 3259730800, 3345764771, 3516065817,
   3600352804, 4094571909, 275423344, 430227734, 506948616,
   659060556, 883997877, 958139571, 1322822218, 1537002063,
   1747873779, 1955562222, 2024104815, 2227730452, 2361852424,
   2428436474, 2756734187, 3204031479, 3329325298]

/-- The SHA-256 initial hash value. -/
def sha256initH : List Nat :=
  [1779033703, 3144134277, 1013904242, 2773480762,
   1359893119, 2600822924, 528734635, 1541459225]

/-- Big-endian assembly of 32-bit words from bytes. -/
def wordsOfBytes : List Nat → List Nat
  | a :: b :: c :: d :: rest =>
    w32 (a * 16777216 + b * 65536 + c * 256 + d) :: wordsOfBytes rest
  | _ => []

/-- Extend the 16 message words by `n` more schedule words. -/
def extendW (ws : List Nat) : Nat → List Nat
  | 0 => ws
  | n + 1 =>
    let i := ws.length
    let w15 := ws.getD (i - 15) 0
    let w2 := ws.getD (i - 2) 0
    let w16 := ws.getD (i - 16) 0
    let w7 := ws.getD (i - 7) 0
    let s0 := (rotr 7 w15) ^^^ (rotr 18 w15) ^^^ (w15 >>> 3)
    let s1 := (rotr 17 w2) ^^^ (rotr 19 w2) ^^^ (w2 >>> 10)
    extendW (ws ++ [w32 (w16 + s0 + w7 + s1)]) n

/-- The 64-word message schedule of one 64-byte block. -/
def msgSchedule (block : List Nat) : List Nat := extendW (wordsOfBytes block) 48

/-- One SHA-256 compression round on the 8-word state. -/
def sha256round (st : List Nat) (k w : Nat) : List Nat :=
  let a := st.getD 0 0
  let b := st.getD 1 0
  let c := st.getD 2 0
  let d := st.getD 3 0
  let e := st.getD 4 0
  let f := st.getD 5 0
  let g := st.getD 6 0
  let h := st.getD 7 0
  let S1 := (rotr 6 e) ^^^ (rotr 11 e) ^^^ (rotr 25 e)
  let ch := (e &&& f) ^^^ ((e ^^^ 0xffffffff) &&& g)
  let temp1 := w32 (h + S1 + ch + k + w)
  let S0 := (rotr 2 a) ^^^ (rotr 13 a) ^^^ (rotr 22 a)
  let maj := (a &&& b) ^^^ (a &&& c) ^^^ (b &&& c)
  let temp2 := w32 (S0 + maj)
  [w32 (temp1 + temp2), a, b, c, w32 (d + temp1), e, f, g]

/-- Pointwise 32-bit addition of two 8-word states. -/
def addState (x y : List Nat) : List Nat :=
  [w32 (x.getD 0 0 + y.getD 0 0), w32 (x.getD 1 0 + y.getD 1 0),
   w32 (x.getD 2 0 + y.getD 2 0), w32 (x.getD 3 0 + y.getD 3 0),
   w32 (x.getD 4 0 + y.getD 4 0), w32 (x.getD 5 0 + y.getD 5 0),
   w32 (x.getD 6 0 + y.getD 6 0), w32 (x.getD 7 0 + y.getD 7 0)]

/-- Process one 64-byte block. -/
def sha256block (h0 : List Nat) (block : List Nat) : List Nat :=
  let ws := msgSchedule block
  let st := (sha256K.zip ws).foldl (fun st kw => sha256round st kw.1 kw.2) h0
  addState h0 st

/-- Split a byte list into 64-byte chunks. -/
def chunks64 (l : List Nat) : List (List Nat) :=
  if h : l = [] then [] else l.take 64 :: chunks64 (l.drop 64)
termination_by l.length
decreasing_by
  simp only [List.length_drop]
  have hl : 0 < l.length := List.length_pos.mpr h
  omega

/-- Big-endian bytes of a 64-bit length field. -/
def bytesBE8 (n : Nat) : List Nat :=
  [(n >>> 56) % 256, (n >>> 48) % 256, (n >>> 40) % 256, (n >>> 32) % 256,
   (n >>> 24) % 256, (n >>> 16) % 256, (n >>> 8) % 256, n % 256]

/-- SHA-256 message padding: `0x80`, zeros to 56 mod 64, 64-bit bit length. -/
def sha256pad (msg : List Nat) : List Nat :=
  let len := msg.length
  let zeros := (119 - len % 64) % 64
  msg ++ 0x80 :: List.replicate zeros 0 ++ bytesBE8 (8 * len)

/-- Big-endian bytes of one 32-bit word. -/
def wordBytesBE (w : Nat) : List Nat :=
  [(w >>> 24) % 256, (w >>> 16) % 256, (w >>> 8) % 256, w % 256]

/-- SHA-256 of a byte sequence, as 32 bytes. -/
def sha256 (msg : List Nat) : List Nat :=
  let padded := sha256pad (msg.map (fun b => b % 256))
  let finalH := (chunks64 padded).foldl sha256block sha256initH
  finalH.flatMap wordBytesBE

/-- The uppercase hexadecimal alphabet used by `data_encoding::HEXUPPER`. -/
def hexDigits : List Char := "0123456789ABCDEF".data

/-- Uppercase hex digit of a value below 16. -/
def hexDigit (n : Nat) : Char := hexDigits.getD n '0'

/-- Uppercase hex rendering of one byte. -/
def byteHex (b : Nat) : List Char := [hexDigit ((b / 16) % 16), hexDigit (b % 16)]

/-- `Buster::hasher` (src/processor.rs): SHA-256 of the payload bytes,
rendered with `HEXUPPER`. -/
def hasher (payload : List Nat) : String := ⟨(sha256 payload).flatMap byteHex⟩

/-! ### Classification, naming, destination paths, validation
(src/processor.rs: `NoHashCategory`, `Buster::process`, `Buster::gen_map`,
`BusterBuilder::validate`) -/

/-- The `NoHashCategory` enum of src/processor.rs. -/
inductive NoHashCategory where
  | FileExtentions : List String → NoHashCategory
  | FilePaths : List String → NoHashCategory
deriving DecidableEq

/-- The `get_name` closure in `Buster::process`: `{stem}.{extension}`
for a pass-through file, `{stem}.{hash}.{extension}` otherwise. -/
def getName (stem ext hash : String) : Bool → String
  | true => stem ++ "." ++ ext
  | false => stem ++ "." ++ hash ++ "." ++ ext

/-- The `no_hash_status` computation in `Buster::process`: a file is
pass-through when some exclusion rule matches, either an exact-path rule
(rule joined to the source root equals the path) or an extension rule. -/
def noHashStatus (source : String) (no_hash : List NoHashCategory)
    (path : String) : Bool :=
  no_hash.any fun cat =>
    match cat with
    | NoHashCategory.FilePaths paths =>
      paths.any (fun fp => joinPath source fp = path)
    | NoHashCategory.FileExtentions exts =>
      match extension path with
      | some cur => exts.any (fun e => cur = e)
      | none => false

/-- The new filename computed by `process_worker` for a file at `path`
with content `contents`: `none` models the `unwrap` panics when the path
has no stem or extension. -/
def newFileName (source : String) (no_hash : List NoHashCategory)
    (path : String) (contents : List Nat) : Option String :=
  match fileStem path, extension path with
  | some stem, some ext =>
    some (getName stem ext (hasher contents) (noHashStatus source no_hash path))
  | _, _ => none

/-- `Buster::gen_map` (src/processor.rs), destination component: with a
route prefix configured, the prefix is joined with the result root
(leading slash stripped), the relative location, and the new name;
without one, the result root is joined with the location and name. -/
def gen_map (pre : Option String) (result : String)
    (rel_location name : String) : String :=
  match pre with
  | some p =>
    joinPath (joinPath (joinPath p (stripLeadingSlash result)) rel_location) name
  | none => joinPath (joinPath result rel_location) name

/-- The inner loop of `BusterBuilder::validate` over one
`FilePaths` rule: error out on the first listed path that does not
exist (under `Path::new(source).join(file)`). -/
def validatePaths (existsFs : String → Bool) (source : String) :
    List String → Except String Unit
  | [] => Except.ok ()
  | f :: rest =>
    if existsFs (joinPath source f) then validatePaths existsFs source rest
    else Except.error ("File " ++ f ++ " doesn't exist")

/-- `BusterBuilder::validate` (src/processor.rs): every path listed in
every exclusion-by-path rule must exist under the source directory.
The filesystem is abstracted as the predicate `existsFs`. -/
def validate (existsFs : String → Bool) (source : String) :
    List NoHashCategory → Except String Unit
  | [] => Except.ok ()
  | NoHashCategory.FilePaths files :: rest =>
    match validatePaths existsFs source files with
    | Except.ok () => validate existsFs source rest
    | Except.error e => Except.error e
  | NoHashCategory.FileExtentions _ :: rest => validate existsFs source rest

/-! ### JSON transport (`serde_json::to_string` in `Files::to_env`,
`serde_json::from_str` in `Files::new`)

The printer follows serde_json's output for the derived `Serialize` on
`Files`: fields in declaration order, string escapes for quote,
backslash, and control characters (named escapes for `\b \t \n \f \r`,
`\u00XX` with lowercase hex otherwise).  The parser accepts the
sub-language the printer emits. -/

/-- Lowercase hex digit, as used by serde_json's `\u00XX` escapes. -/
def hexLowerDigit (n : Nat) : Char :=
  "0123456789abcdef".data.getD n '0'

/-- serde_json's escape of one character inside a string literal. -/
def jsonEscapeChar (c : Char) : List Char :=
  if c = '"' then ['\\', '"']
  else if c = '\\' then ['\\', '\\']
  else if c = Char.ofNat 8 then ['\\', 'b']
  else if c = Char.ofNat 9 then ['\\', 't']
  else if c = Char.ofNat 10 then ['\\', 'n']
  else if c = Char.ofNat 12 then ['\\', 'f']
  else if c = Char.ofNat 13 then ['\\', 'r']
  else if c.toNat < 32 then
    ['\\', 'u', '0', '0', hexLowerDigit (c.toNat / 16), hexLowerDigit (c.toNat % 16)]
  else [c]

/-- serde_json's escape of a whole string body. -/
def jsonEscape (l : List Char) : List Char := l.flatMap jsonEscapeChar

/-- A JSON string literal with its quotes. -/
def serStr (s : String) : List Char := '"' :: (jsonEscape s.data ++ ['"'])

/-- One `"key":"value"` map entry. -/
def serEntry (kv : String × String) : List Char :=
  serStr kv.1 ++ ':' :: serStr kv.2

/-- Comma-separated map entries. -/
def serMapEntries : List (String × String) → List Char
  | [] => []
  | [kv] => serEntry kv
  | kv :: rest => serEntry kv ++ ',' :: serMapEntries rest

/-- The serde_json rendering of a `Files` value. -/
def serializeFiles (f : Files) : List Char :=
  "\x7b\"map\":\x7b".data ++ serMapEntries f.map ++
    "\x7d,\"base_dir\":".data ++ serStr f.base_dir ++ "\x7d".data

/-- `Files::to_env` (src/processor.rs): serialize the table with
`serde_json::to_string` (the surrounding file write is I/O glue). -/
def Files.to_env (f : Files) : String := ⟨serializeFiles f⟩

/-- Value of one hex digit (either case), as in JSON `\uXXXX` escapes. -/
def hexVal (c : Char) : Option Nat :=
  if '0' ≤ c ∧ c ≤ '9' then some (c.toNat - '0'.toNat)
  else if 'a' ≤ c ∧ c ≤ 'f' then some (c.toNat - 'a'.toNat + 10)
  else if 'A' ≤ c ∧ c ≤ 'F' then some (c.toNat - 'A'.toNat + 10)
  else none

/-- Parse a JSON string body up to and including the closing quote,
returning the unescaped content and the remaining input. -/
def parseStrBody : List Char → Option (List Char × List Char)
  | [] => none
  | c :: rest =>
    if c = '"' then some ([], rest)
    else if c = '\\' then
      match rest with
      | [] => none
      | e :: rest' =>
        if e = '"' then
          (parseStrBody rest').map (fun p => ('"' :: p.1, p.2))
        else if e = '\\' then
          (parseStrBody rest').map (fun p => ('\\' :: p.1, p.2))
        else if e = 'b' then
          (parseStrBody rest').map (fun p => (Char.ofNat 8 :: p.1, p.2))
        else if e = 't' then
          (parseStrBody rest').map (fun p => (Char.ofNat 9 :: p.1, p.2))
        else if e = 'n' then
          (parseStrBody rest').map (fun p => (Char.ofNat 10 :: p.1, p.2))
        else if e = 'f' then
          (parseStrBody rest').map (fun p => (Char.ofNat 12 :: p.1, p.2))
        else if e = 'r' then
          (parseStrBody rest').map (fun p => (Char.ofNat 13 :: p.1, p.2))
        else if e = '/' then
          (parseStrBody rest').map (fun p => ('/' :: p.1, p.2))
        else if e = 'u' then
          match rest' with
          | h1 :: h2 :: h3 :: h4 :: rest2 =>
            match hexVal h1, hexVal h2, hexVal h3, hexVal h4 with
            | some a, some b, some c, some d =>
              (parseStrBody rest2).map
                (fun p => (Char.ofNat (a * 4096 + b * 256 + c * 16 + d) :: p.1, p.2))
            | _, _, _, _ => none
          | _ => none
        else none
    else (parseStrBody rest).map (fun p => (c :: p.1, p.2))

/-- Parse a quoted JSON string. -/
def parseStr (l : List Char) : Option (String × List Char) :=
  match l with
  | '"' :: rest => (parseStrBody rest).map (fun p => (String.mk p.1, p.2))
  | _ => none

/-- Consume an expected literal sequence of characters. -/
def stripPrefixChars : List Char → List Char → Option (List Char)
  | [], l => some l
  | p :: ps, c :: cs => if c = p then stripPrefixChars ps cs else none
  | _ :: _, [] => none

/-- Parse one or more `"k":"v"` pairs up to and including the
object's closing brace. -/
def parsePairs : Nat → List Char → Option (List (String × String) × List Char)
  | 0, _ => none
  | fuel + 1, l =>
    match parseStr l with
    | none => none
    | some (k, l1) =>
      match l1 with
      | ':' :: l2 =>
        match parseStr l2 with
        | none => none
        | some (v, l3) =>
          match l3 with
          | ',' :: l4 => (parsePairs fuel l4).map (fun p => ((k, v) :: p.1, p.2))
          | '}' :: l4 => some ([(k, v)], l4)
          | _ => none
      | _ => none

/-- Parse the body of a JSON object of string pairs, the opening brace
already consumed. -/
def parseMapEntries (fuel : Nat) (l : List Char) :
    Option (List (String × String) × List Char) :=
  match l with
  | '}' :: rest => some ([], rest)
  | _ => parsePairs fuel l

/-- Parse the serde_json rendering of a `Files` value; the whole input
must be consumed. -/
def parseFiles (l : List Char) : Option Files :=
  match stripPrefixChars "\x7b\"map\":\x7b".data l with
  | none => none
  | some l1 =>
    match parseMapEntries l1.length l1 with
    | none => none
    | some (entries, l2) =>
      match stripPrefixChars ",\"base_dir\":".data l2 with
      | none => none
      | some l3 =>
        match parseStr l3 with
        | none => none
        | some (bd, l4) =>
          match stripPrefixChars "\x7d".data l4 with
          | none => none
          | some l5 => if l5 = [] then some ⟨entries, bd⟩ else none

/-- `Files::new` (src/filemap.rs): deserialize a table from its textual
transport form (`none` models the `unwrap` panic on malformed input). -/
def Files.new (map : String) : Option Files := parseFiles map.data

/-! ### Helper lemmas -/

theorem strDrop_append (a b : String) : strDrop (a ++ b) a.length = b := by
  show String.mk ((a ++ b).data.drop a.data.length) = b
  rw [String.data_append, List.drop_left]

theorem containsKey_eq_isSome (m : List (String × String)) (k : String) :
    containsKey m k = (getKey m k).isSome := by
  induction m with
  | nil => rfl
  | cons kv rest ih =>
    rcases kv with ⟨k', v⟩
    by_cases h : k' = k <;> simp [containsKey, getKey, h] at ih ⊢ <;> exact ih

theorem getKey_append_left (m l : List (String × String)) (k v : String)
    (h : getKey m k = some v) : getKey (m ++ l) k = some v := by
  induction m with
  | nil => simp [getKey] at h
  | cons kv rest ih =>
    rcases kv with ⟨k', v'⟩
    by_cases hk : k' = k <;> simp [getKey, hk] at h ⊢
    · exact h
    · exact ih h

theorem swallowAdd_preserves (f : Files) (k' v' k v : String)
    (h : getKey f.map k = some v) :
    getKey (swallowAdd f k' v').map k = some v := by
  unfold swallowAdd Files.add
  by_cases hc : containsKey f.map k'
  · simp [hc]; exact h
  · simp [hc]; exact getKey_append_left _ _ _ _ h

/-! ### Claims -/

/-- C1: for a loaded table whose stored fingerprinted path for `p` is
the table's `base_dir` followed by `rest`, `get p` returns the
root-relative variant `rest` (the stored path with the `base_dir`
prefix removed) while `get_full_path p` returns the stored path
unchanged, including the base. -/
theorem C1_get_variants (f : Files) (p rest : String)
    (h : getKey f.map p = some (f.base_dir ++ rest)) :
    f.get p = some rest ∧ f.get_full_path p = some (f.base_dir ++ rest) := by
  constructor
  · unfold Files.get
    rw [h]
    simp only [strDrop_append]
  · unfold Files.get_full_path
    exact h

/-- Witness for C1 on the one-entry table from the filemap docs. -/
theorem C1_witness :
    getKey (Files.mk [("./dist/a.svg", "/tmp/out/a.H.svg")] "/tmp/out").map
        "./dist/a.svg" = some ("/tmp/out" ++ "/a.H.svg") ∧
    (Files.mk [("./dist/a.svg", "/tmp/out/a.H.svg")] "/tmp/out").get
        "./dist/a.svg" = some "/a.H.svg" :=
  ⟨by decide,
   (C1_get_variants (Files.mk [("./dist/a.svg", "/tmp/out/a.H.svg")] "/tmp/out")
      "./dist/a.svg" "/a.H.svg" (by decide)).1⟩

/-- C2: `Files.add` returns the "key exists" error precisely when the
key is already in the mapping, and otherwise inserts the pair and
succeeds — each key is write-once. -/
theorem C2_add_write_once (f : Files) (k v : String) :
    (f.add k v = Except.error "key exists" ↔ containsKey f.map k = true) ∧
    (containsKey f.map k = false →
      f.add k v = Except.ok (Files.mk (f.map ++ [(k, v)]) f.base_dir)) := by
  unfold Files.add
  constructor
  · by_cases h : containsKey f.map k <;> simp [h]
  · intro h; simp [h]

/-- Witness for C2: inserting a fresh key into the empty table. -/
theorem C2_witness :
    containsKey (Files.mk [] "/tmp/out").map "a" = false ∧
    (Files.mk [] "/tmp/out").add "a" "b" =
      Except.ok (Files.mk [("a", "b")] "/tmp/out") :=
  ⟨rfl, (C2_add_write_once (Files.mk [] "/tmp/out") "a" "b").2 rfl⟩

/-- C3: the processor drops `add`'s duplicate-key error (`let _ =
file_map.add(..)`): a duplicate insertion leaves the table unchanged
instead of failing the run, and any mapping already in the table
survives the rest of the run's insertions, so the first-inserted
mapping for a key wins. -/
theorem C3_duplicate_swallowed (f : Files) (ps : List (String × String))
    (k v v' : String) :
    (containsKey f.map k = true → swallowAdd f k v' = f) ∧
    (getKey f.map k = some v →
      getKey (addAllSwallow f ps).map k = some v) := by
  constructor
  · intro h
    unfold swallowAdd Files.add
    simp [h]
  · intro h
    unfold addAllSwallow
    induction ps generalizing f with
    | nil => exact h
    | cons q rest ih =>
      simp only [List.foldl_cons]
      exact ih _ (swallowAdd_preserves _ _ _ _ _ h)

/-- Witness for C3: a duplicate key is dropped and the first value wins. -/
theorem C3_witness :
    containsKey (Files.mk [("k", "v1")] "").map "k" = true ∧
    swallowAdd (Files.mk [("k", "v1")] "") "k" "v2" = Files.mk [("k", "v1")] "" ∧
    getKey (Files.mk [("k", "v1")] "").map "k" = some "v1" ∧
    getKey (addAllSwallow (Files.mk [("k", "v1")] "") [("k", "v2")]).map "k" =
      some "v1" :=
  ⟨rfl,
   (C3_duplicate_swallowed (Files.mk [("k", "v1")] "") [("k", "v2")] "k" "v1" "v2").1 rfl,
   rfl,
   (C3_duplicate_swallowed (Files.mk [("k", "v1")] "") [("k", "v2")] "k" "v1" "v2").2 rfl⟩

/-- C10 counterexample: on a loadable table whose stored value is
shorter than its `base_dir`, the runtime `get` panics (outer `none` of
[Files.get_checked]) on a present key while `get_full_path` answers
`some`, so the two variants do not agree on presence over every loaded
table as the claim states. -/
theorem C10_counterexample :
    Files.get_checked (Files.mk [("dist/x.svg", "v")] "/tmp/out") "dist/x.svg" =
      none ∧
    (Files.mk [("dist/x.svg", "v")] "/tmp/out").get_full_path "dist/x.svg" =
      some "v" := by
  decide

/-- C10, amended: on every loaded table whose stored value for the
queried path (when present) is at least `base_dir` long — in particular
any table whose values carry the `base_dir` prefix — `get` does not
panic and returns exactly its sliced value, `get` and `get_full_path`
agree on presence, presence is exact string-match membership of the key
in the mapping, and in particular a table keyed by `./dist/x.svg` does
not answer for `dist/x.svg`. -/
theorem C10_presence_agreement (f : Files) (p : String)
    (h : ∀ v, getKey f.map p = some v → f.base_dir.length ≤ v.length) :
    Files.get_checked f p = some (f.get p) ∧
    ((f.get p).isSome ↔ (f.get_full_path p).isSome) ∧
    (f.get p = none ↔ containsKey f.map p = false) ∧
    (Files.mk [("./dist/x.svg", "v")] "").get "dist/x.svg" = none := by
  refine ⟨?_, ?_, ?_, by decide⟩
  · cases hk : getKey f.map p with
    | none => simp [Files.get_checked, Files.get, hk]
    | some v =>
      have hlen : f.base_dir.length ≤ v.length := h v hk
      simp [Files.get_checked, Files.get, hk, strDropChecked, strDrop, hlen]
  · unfold Files.get Files.get_full_path
    cases hk : getKey f.map p <;> simp [hk]
  · unfold Files.get
    rw [containsKey_eq_isSome]
    cases hk : getKey f.map p <;> simp [hk]

/-- Witness for the amended C10 on a concrete in-bounds table. -/
theorem C10_witness :
    (∀ v, getKey (Files.mk [("./dist/x.svg", "v")] "").map "./dist/x.svg" =
      some v → (Files.mk [("./dist/x.svg", "v")] "").base_dir.length ≤ v.length) ∧
    Files.get_checked (Files.mk [("./dist/x.svg", "v")] "") "./dist/x.svg" =
      some ((Files.mk [("./dist/x.svg", "v")] "").get "./dist/x.svg") :=
  ⟨fun v _ => Nat.zero_le _,
   (C10_presence_agreement (Files.mk [("./dist/x.svg", "v")] "") "./dist/x.svg"
      (fun v _ => Nat.zero_le _)).1⟩

/-- C6: for a processed file with a stem and an extension, the new
filename is `{stem}.{HASH}.{extension}` with `HASH` the content hash of
the file's bytes when the file is fingerprinted, and exactly
`{stem}.{extension}` when it is pass-through. -/
theorem C6_new_filename (source : String) (rules : List NoHashCategory)
    (path : String) (contents : List Nat) (stem ext : String)
    (hstem : fileStem path = some stem) (hext : extension path = some ext) :
    (noHashStatus source rules path = false →
      newFileName source rules path contents =
        some (stem ++ "." ++ hasher contents ++ "." ++ ext)) ∧
    (noHashStatus source rules path = true →
      newFileName source rules path contents = some (stem ++ "." ++ ext)) := by
  unfold newFileName
  rw [hstem, hext]
  constructor <;> intro h <;> rw [h] <;> rfl

/-- Witness for C6: `dist/a.svg` with no exclusion rules is
fingerprinted. -/
theorem C6_witness :
    fileStem "dist/a.svg" = some "a" ∧ extension "dist/a.svg" = some "svg" ∧
    noHashStatus "./dist" [] "dist/a.svg" = false ∧
    newFileName "./dist" [] "dist/a.svg" [] =
      some ("a" ++ "." ++ hasher [] ++ "." ++ "svg") :=
  ⟨by decide, by decide, rfl,
   (C6_new_filename "./dist" [] "dist/a.svg" [] "a" "svg" (by decide)
      (by decide)).1 rfl⟩

/-- C7: `no_hash_status` classifies a file as pass-through exactly when
some exclusion rule matches it — an exact-path rule whose entry joined
to the source root equals the file's path, or an extension rule listing
the file's extension; all other files are fingerprinted. -/
theorem C7_classification (source : String) (rules : List NoHashCategory)
    (path : String) :
    noHashStatus source rules path = true ↔
      ((∃ paths, NoHashCategory.FilePaths paths ∈ rules ∧
          ∃ fp ∈ paths, joinPath source fp = path) ∨
       (∃ exts, NoHashCategory.FileExtentions exts ∈ rules ∧
          ∃ e ∈ exts, extension path = some e)) := by
  unfold noHashStatus
  rw [List.any_eq_true]
  constructor
  · rintro ⟨cat, hcat, hmatch⟩
    cases cat with
    | FilePaths paths =>
      left
      refine ⟨paths, hcat, ?_⟩
      simpa using hmatch
    | FileExtentions exts =>
      right
      refine ⟨exts, hcat, ?_⟩
      cases hx : extension path with
      | none => rw [hx] at hmatch; simp at hmatch
      | some cur =>
        rw [hx] at hmatch
        simp only [List.any_eq_true, decide_eq_true_eq] at hmatch
        obtain ⟨e, he, heq⟩ := hmatch
        exact ⟨e, he, by rw [heq]⟩
  · rintro (⟨paths, hmem, fp, hfp, heq⟩ | ⟨exts, hmem, e, he, hx⟩)
    · refine ⟨NoHashCategory.FilePaths paths, hmem, ?_⟩
      simp only [List.any_eq_true, decide_eq_true_eq]
      exact ⟨fp, hfp, heq⟩
    · refine ⟨NoHashCategory.FileExtentions exts, hmem, ?_⟩
      rw [hx]
      simp only [List.any_eq_true, decide_eq_true_eq]
      exact ⟨e, he, rfl⟩

/-- Witness for C7: an extension rule for `svg` excludes `a.svg`. -/
theorem C7_witness :
    noHashStatus "./dist" [NoHashCategory.FileExtentions ["svg"]] "a.svg" = true :=
  (C7_classification "./dist" [NoHashCategory.FileExtentions ["svg"]] "a.svg").mpr
    (Or.inr ⟨["svg"], by simp, "svg", by simp, by decide⟩)

theorem isPrefixOf_append_str (a x : String) :
    a.data.isPrefixOf (a ++ x).data = true := by
  rw [String.data_append]
  exact List.isPrefixOf_iff_prefix.mpr (List.prefix_append a.data x.data)

theorem joinPath_rel (a b : String) (hb : startsWithSlash b = false)
    (ha : a ≠ "") :
    joinPath a b = a ++ b ∨ joinPath a b = a ++ "/" ++ b := by
  unfold joinPath
  rw [hb]
  by_cases h : endsWithSlash a <;> simp [ha, h]

/-- C8: with a route prefix configured, the destination recorded for a
fingerprinted file is the prefix joined with the result root (leading
slash dropped), the relative location and the new name; in particular
with prefix `/test` and result `/tmp/out` every destination (for a
relative location and name that are not absolute) begins with
`/test/tmp/out/`. -/
theorem C8_prefix_destination (pre result rel name : String) :
    gen_map (some pre) result rel name =
      joinPath (joinPath (joinPath pre (stripLeadingSlash result)) rel) name ∧
    (startsWithSlash rel = false → startsWithSlash name = false →
      "/test/tmp/out/".data.isPrefixOf
        (gen_map (some "/test") "/tmp/out" rel name).data = true) := by
  constructor
  · rfl
  · intro hrel hname
    show "/test/tmp/out/".data.isPrefixOf
      (joinPath (joinPath (joinPath "/test" (stripLeadingSlash "/tmp/out")) rel)
        name).data = true
    have hA : joinPath "/test" (stripLeadingSlash "/tmp/out") = "/test/tmp/out" := by
      decide
    rw [hA]
    have hAe : endsWithSlash "/test/tmp/out" = false := by decide
    have hAne : ("/test/tmp/out" : String) ≠ "" := by decide
    have h1 : joinPath "/test/tmp/out" rel = "/test/tmp/out/" ++ rel := by
      unfold joinPath
      rw [hrel, hAe]
      simp only [Bool.false_eq_true, if_false, hAne]
      rw [show ("/test/tmp/out" ++ "/" : String) = "/test/tmp/out/" from by decide]
    rw [h1]
    have hBne : "/test/tmp/out/" ++ rel ≠ "" := by
      intro hc
      have hd : ("/test/tmp/out/" ++ rel).data = [] := by rw [hc]
      rw [String.data_append] at hd
      simp at hd
    rcases joinPath_rel ("/test/tmp/out/" ++ rel) name hname hBne with ho | ho
    · rw [ho, String.append_assoc]
      exact isPrefixOf_append_str "/test/tmp/out/" (rel ++ name)
    · rw [ho]
      simp only [String.append_assoc]
      exact isPrefixOf_append_str "/test/tmp/out/" (rel ++ ("/" ++ name))

/-- Witness for C8: the location `a/b` and name `x.H.svg` land under
`/test/tmp/out/`. -/
theorem C8_witness :
    gen_map (some "/test") "/tmp/out" "a/b" "x.H.svg" =
      joinPath (joinPath (joinPath "/test" (stripLeadingSlash "/tmp/out")) "a/b")
        "x.H.svg" ∧
    startsWithSlash "a/b" = false ∧ startsWithSlash "x.H.svg" = false ∧
    "/test/tmp/out/".data.isPrefixOf
      (gen_map (some "/test") "/tmp/out" "a/b" "x.H.svg").data = true :=
  ⟨(C8_prefix_destination "/test" "/tmp/out" "a/b" "x.H.svg").1, rfl, rfl,
   (C8_prefix_destination "/test" "/tmp/out" "a/b" "x.H.svg").2 rfl rfl⟩

theorem validatePaths_ok_iff (existsFs : String → Bool) (source : String)
    (files : List String) :
    validatePaths existsFs source files = Except.ok () ↔
      ∀ f ∈ files, existsFs (joinPath source f) = true := by
  induction files with
  | nil => simp [validatePaths]
  | cons f rest ih =>
    by_cases h : existsFs (joinPath source f) <;> simp [validatePaths, h, ih]

/-- C9: builder validation succeeds exactly when every path named in
every exclusion-by-path rule exists (as `existsFs` sees the filesystem)
under the source directory; a missing path makes it fail.  `validate`
runs inside `build()`, before a `Buster` exists, so a failure precedes
any processing or filesystem mutation. -/
theorem C9_validate (existsFs : String → Bool) (source : String)
    (rules : List NoHashCategory) :
    validate existsFs source rules = Except.ok () ↔
      ∀ files, NoHashCategory.FilePaths files ∈ rules →
        ∀ f ∈ files, existsFs (joinPath source f) = true := by
  induction rules with
  | nil => simp [validate]
  | cons cat rest ih =>
    cases cat with
    | FileExtentions exts =>
      rw [show validate existsFs source (NoHashCategory.FileExtentions exts :: rest) =
        validate existsFs source rest from rfl, ih]
      constructor
      · intro h files hmem
        rcases List.mem_cons.mp hmem with heq | hmem'
        · exact NoHashCategory.noConfusion heq
        · exact h files hmem'
      · intro h files hmem
        exact h files (List.mem_cons_of_mem _ hmem)
    | FilePaths files0 =>
      cases hv : validatePaths existsFs source files0 with
      | ok u =>
        cases u
        rw [show validate existsFs source (NoHashCategory.FilePaths files0 :: rest) =
          match validatePaths existsFs source files0 with
          | Except.ok () => validate existsFs source rest
          | Except.error e => Except.error e from rfl, hv, ih]
        constructor
        · intro h fs hmem
          rcases List.mem_cons.mp hmem with heq | hmem'
          · injection heq with he
            subst he
            exact (validatePaths_ok_iff existsFs source fs).mp hv
          · exact h fs hmem'
        · intro h fs hmem
          exact h fs (List.mem_cons_of_mem _ hmem)
      | error e =>
        rw [show validate existsFs source (NoHashCategory.FilePaths files0 :: rest) =
          match validatePaths existsFs source files0 with
          | Except.ok () => validate existsFs source rest
          | Except.error e => Except.error e from rfl, hv]
        simp only [reduceCtorEq, false_iff]
        intro h
        have h0 := (validatePaths_ok_iff existsFs source files0).mpr
          (h files0 (List.mem_cons_self _ _))
        rw [hv] at h0
        cases h0

/-- Witness for C9: a rule listing one path that exists validates. -/
theorem C9_witness :
    validate (fun _ => true) "./dist" [NoHashCategory.FilePaths ["a.svg"]] =
      Except.ok () :=
  (C9_validate (fun _ => true) "./dist" [NoHashCategory.FilePaths ["a.svg"]]).mpr
    (by intro files _ f _; rfl)

theorem length_foldl_sha256block (bs : List (List Nat)) (h0 : List Nat)
    (h : h0.length = 8) : (bs.foldl sha256block h0).length = 8 := by
  induction bs generalizing h0 with
  | nil => exact h
  | cons b rest ih =>
    simp only [List.foldl_cons]
    exact ih _ rfl

theorem length_flatMap_wordBytes (l : List Nat) :
    (l.flatMap wordBytesBE).length = 4 * l.length := by
  induction l with
  | nil => rfl
  | cons w rest ih => simp [wordBytesBE, ih]; omega

theorem length_flatMap_byteHex (l : List Nat) :
    (l.flatMap byteHex).length = 2 * l.length := by
  induction l with
  | nil => rfl
  | cons b rest ih => simp [byteHex, ih]; omega

theorem sha256_length (msg : List Nat) : (sha256 msg).length = 32 := by
  have h8 : sha256initH.length = 8 := rfl
  show (((chunks64 (sha256pad (msg.map (fun b => b % 256)))).foldl sha256block
      sha256initH).flatMap wordBytesBE).length = 32
  rw [length_flatMap_wordBytes, length_foldl_sha256block _ _ h8]

theorem hexDigit_mod_mem (n : Nat) : hexDigit (n % 16) ∈ hexDigits := by
  have hall : ∀ m, m < 16 → hexDigit m ∈ hexDigits := by decide
  exact hall _ (Nat.mod_lt _ (by norm_num))

/-- C5: the content hasher is a deterministic function of exactly the
file's bytes; its token is the uppercase-hexadecimal rendering of the
fixed-length (32-byte) SHA-256 digest of those bytes, hence always 64
characters drawn from the uppercase hex alphabet, and identical byte
sequences always yield the identical token. -/
theorem C5_hasher (bytes bytes2 : List Nat) (h : bytes = bytes2) :
    hasher bytes = hasher bytes2 ∧
    hasher bytes = String.mk ((sha256 bytes).flatMap byteHex) ∧
    (sha256 bytes).length = 32 ∧
    (hasher bytes).length = 64 ∧
    ∀ c ∈ (hasher bytes).data, c ∈ hexDigits := by
  refine ⟨by rw [h], rfl, sha256_length bytes, ?_, ?_⟩
  · show ((sha256 bytes).flatMap byteHex).length = 64
    rw [length_flatMap_byteHex, sha256_length]
  · intro c hc
    have hc' : c ∈ (sha256 bytes).flatMap byteHex := hc
    rw [List.mem_flatMap] at hc'
    obtain ⟨b, _, hcb⟩ := hc'
    simp only [byteHex, List.mem_cons, List.not_mem_nil, or_false] at hcb
    rcases hcb with h1 | h1 <;> rw [h1]
    · exact hexDigit_mod_mem _
    · exact hexDigit_mod_mem _

/-- Witness for C5 at the empty byte sequence. -/
theorem C5_witness :
    ([] : List Nat) = [] ∧ (hasher []).length = 64 :=
  ⟨rfl, (C5_hasher [] [] rfl).2.2.2.1⟩

/-! ### Round-trip of the JSON transport -/

theorem stripPrefix_append (p l : List Char) :
    stripPrefixChars p (p ++ l) = some l := by
  induction p with
  | nil => rfl
  | cons c ps ih => simp [stripPrefixChars, ih]

theorem hexVal_hexLower (m : Nat) (h : m < 16) :
    hexVal (hexLowerDigit m) = some m := by
  have hall : ∀ k, k < 16 → hexVal (hexLowerDigit k) = some k := by decide
  exact hall m h

theorem parseStrBody_u (n : Nat) (hn : n < 32) (cs tail rest : List Char)
    (ih : parseStrBody tail = some (cs, rest)) :
    parseStrBody ('\\' :: 'u' :: '0' :: '0' :: hexLowerDigit (n / 16) ::
      hexLowerDigit (n % 16) :: tail) = some (Char.ofNat n :: cs, rest) := by
  have hd1 : hexVal (hexLowerDigit (n / 16)) = some (n / 16) :=
    hexVal_hexLower _ (by omega)
  have hd2 : hexVal (hexLowerDigit (n % 16)) = some (n % 16) :=
    hexVal_hexLower _ (Nat.mod_lt _ (by norm_num))
  rw [parseStrBody.eq_def]
  simp only [reduceIte, reduceCtorEq, hd1, hd2, ih, Option.map_some]
  have harith : ∀ a b : Nat, a = b → some (Char.ofNat a :: cs, rest) =
      some (Char.ofNat b :: cs, rest) := by
    intro a b hab
    rw [hab]
  exact harith _ _ (by omega)

theorem parseStrBody_escape (s : List Char) (rest : List Char) :
    parseStrBody (jsonEscape s ++ '"' :: rest) = some (s, rest) := by
  induction s with
  | nil =>
    show parseStrBody ('"' :: rest) = some ([], rest)
    rw [parseStrBody.eq_def]
    simp
  | cons c cs ih =>
    show parseStrBody (jsonEscapeChar c ++ jsonEscape cs ++ '"' :: rest) =
      some (c :: cs, rest)
    by_cases h1 : c = '"'
    · subst h1
      rw [show jsonEscapeChar '"' ++ jsonEscape cs ++ '"' :: rest =
        '\\' :: '"' :: (jsonEscape cs ++ '"' :: rest) from rfl, parseStrBody.eq_def]
      simp [ih]
    by_cases h2 : c = '\\'
    · subst h2
      rw [show jsonEscapeChar '\\' ++ jsonEscape cs ++ '"' :: rest =
        '\\' :: '\\' :: (jsonEscape cs ++ '"' :: rest) from rfl, parseStrBody.eq_def]
      simp [ih]
    by_cases h3 : c = Char.ofNat 8
    · subst h3
      rw [show jsonEscapeChar (Char.ofNat 8) ++ jsonEscape cs ++ '"' :: rest =
        '\\' :: 'b' :: (jsonEscape cs ++ '"' :: rest) from rfl, parseStrBody.eq_def]
      simp [ih]
    by_cases h4 : c = Char.ofNat 9
    · subst h4
      rw [show jsonEscapeChar (Char.ofNat 9) ++ jsonEscape cs ++ '"' :: rest =
        '\\' :: 't' :: (jsonEscape cs ++ '"' :: rest) from rfl, parseStrBody.eq_def]
      simp [ih]
    by_cases h5 : c = Char.ofNat 10
    · subst h5
      rw [show jsonEscapeChar (Char.ofNat 10) ++ jsonEscape cs ++ '"' :: rest =
        '\\' :: 'n' :: (jsonEscape cs ++ '"' :: rest) from rfl, parseStrBody.eq_def]
      simp [ih]
    by_cases h6 : c = Char.ofNat 12
    · subst h6
      rw [show jsonEscapeChar (Char.ofNat 12) ++ jsonEscape cs ++ '"' :: rest =
        '\\' :: 'f' :: (jsonEscape cs ++ '"' :: rest) from rfl, parseStrBody.eq_def]
      simp [ih]
    by_cases h7 : c = Char.ofNat 13
    · subst h7
      rw [show jsonEscapeChar (Char.ofNat 13) ++ jsonEscape cs ++ '"' :: rest =
        '\\' :: 'r' :: (jsonEscape cs ++ '"' :: rest) from rfl, parseStrBody.eq_def]
      simp [ih]
    by_cases h8 : c.toNat < 32
    · have hesc : jsonEscapeChar c =
          ['\\', 'u', '0', '0', hexLowerDigit (c.toNat / 16),
           hexLowerDigit (c.toNat % 16)] := by
        simp [jsonEscapeChar, h1, h2, h3, h4, h5, h6, h7, h8]
      rw [hesc]
      simp only [List.cons_append, List.nil_append]
      rw [parseStrBody_u c.toNat h8 cs _ rest ih, Char.ofNat_toNat]
    · have hesc : jsonEscapeChar c = [c] := by
        simp [jsonEscapeChar, h1, h2, h3, h4, h5, h6, h7, h8]
      rw [hesc]
      show parseStrBody (c :: (jsonEscape cs ++ '"' :: rest)) = some (c :: cs, rest)
      rw [parseStrBody.eq_def]
      simp [ih, h1, h2]

theorem parseStr_serStr (s : String) (rest : List Char) :
    parseStr (serStr s ++ rest) = some (s, rest) := by
  show parseStr ('"' :: (jsonEscape s.data ++ ['"'] ++ rest)) = some (s, rest)
  rw [parseStr.eq_def]
  simp only [List.append_assoc, List.singleton_append]
  rw [parseStrBody_escape s.data rest]
  rfl

theorem parsePairs_serMap (m : List (String × String)) (kv : String × String)
    (rest : List Char) (fuel : Nat) (h : m.length < fuel) :
    parsePairs fuel (serMapEntries (kv :: m) ++ '}' :: rest) =
      some (kv :: m, rest) := by
  induction m generalizing kv fuel with
  | nil =>
    cases fuel with
    | zero => omega
    | succ fuel =>
      rw [parsePairs.eq_def]
      simp only [serMapEntries, serEntry, List.append_assoc, List.cons_append,
        parseStr_serStr, Option.some_bind, Prod.mk.eta]
  | cons kv' m' ih =>
    cases fuel with
    | zero => omega
    | succ fuel =>
      rw [parsePairs.eq_def]
      simp only [serMapEntries, serEntry, List.append_assoc, List.cons_append,
        parseStr_serStr, Option.some_bind, Prod.mk.eta]
      rw [ih kv' fuel (by simpa using Nat.lt_of_succ_lt_succ h)]
      rfl

theorem serEntry_length_pos (kv : String × String) : 1 ≤ (serEntry kv).length := by
  simp [serEntry, serStr]

theorem length_le_serMap (m : List (String × String)) :
    m.length ≤ (serMapEntries m).length := by
  induction m with
  | nil => simp [serMapEntries]
  | cons kv m' ih =>
    cases m' with
    | nil =>
      simpa [serMapEntries] using serEntry_length_pos kv
    | cons kv' m'' =>
      have h1 := serEntry_length_pos kv
      show (kv :: kv' :: m'').length ≤
        (serEntry kv ++ ',' :: serMapEntries (kv' :: m'')).length
      rw [List.length_append]
      simp only [List.length_cons] at ih ⊢
      omega

theorem parseMapEntries_ne (fuel : Nat) (l : List Char)
    (h : l.head? ≠ some '}') : parseMapEntries fuel l = parsePairs fuel l := by
  rw [parseMapEntries.eq_def]
  split
  · simp at h
  · rfl

theorem head_serMap_cons (kv : String × String) (m' : List (String × String))
    (X : List Char) : (serMapEntries (kv :: m') ++ X).head? = some '"' := by
  cases m' <;> simp [serMapEntries, serEntry, serStr]

theorem parseMapEntries_ser (m : List (String × String)) (rest : List Char)
    (fuel : Nat) (h : m.length ≤ fuel) :
    parseMapEntries fuel (serMapEntries m ++ '}' :: rest) = some (m, rest) := by
  cases m with
  | nil =>
    show parseMapEntries fuel ('}' :: rest) = some ([], rest)
    rw [parseMapEntries.eq_def]
    simp
  | cons kv m' =>
    rw [parseMapEntries_ne fuel _ (by rw [head_serMap_cons]; simp)]
    exact parsePairs_serMap m' kv rest fuel (by simp at h; omega)

/-- C4: serializing any lookup table (any association of string keys to
string values together with any `base_dir`) to its textual transport
form with `Files.to_env` and deserializing that text with `Files.new`
yields the original table: same mapping, same `base_dir`. -/
theorem C4_roundtrip (f : Files) : Files.new (Files.to_env f) = some f := by
  show parseFiles (serializeFiles f) = some f
  rw [show serializeFiles f = "\x7b\"map\":\x7b".data ++
      (serMapEntries f.map ++ ('}' :: (",\"base_dir\":".data ++
        (serStr f.base_dir ++ "\x7d".data)))) from by
    simp only [serializeFiles, List.append_assoc]
    rfl]
  have hfuel : f.map.length ≤
      (serMapEntries f.map ++ ('}' :: (",\"base_dir\":".data ++
        (serStr f.base_dir ++ "\x7d".data)))).length := by
    rw [List.length_append]
    have := length_le_serMap f.map
    omega
  have hmap := parseMapEntries_ser f.map
    (",\"base_dir\":".data ++ (serStr f.base_dir ++ "\x7d".data))
    ((serMapEntries f.map ++ ('}' :: (",\"base_dir\":".data ++
      (serStr f.base_dir ++ "\x7d".data)))).length) hfuel
  have hlast : stripPrefixChars "\x7d".data "\x7d".data = some [] := rfl
  simp only [parseFiles.eq_def, stripPrefix_append, hmap,
    parseStr_serStr f.base_dir, hlast]
  rfl

end CacheBuster
